import Mathlib

/-!
# Verification of the chord-voicing engine (`src/utils/guitarChords.ts`)

A shallow embedding of the guitar chord-voicing search of the
`circle_of_fifths` repository, together with theorems checking the
natural-language specification against it.

Modelling conventions:
* JavaScript numbers that are always non-negative integers become `Nat`;
  pitch arithmetic that can go negative is done in `Int` before the
  `normalizePitch` reduction modulo 12.
* The fractional score weights `0.2`/`0.3` are modelled in `ℚ`; the
  sentinel `Number.POSITIVE_INFINITY` returned for a voicing with no
  sounded string becomes `⊤` in `WithTop ℚ`.
* `Array.prototype.sort` with a numeric comparator is stable in the
  JavaScript engines targeted by the repo (required by the language spec
  since ES2019); a stable sort's output is uniquely determined by the
  comparator and the input order, so it is modelled by the stable
  `List.insertionSort`.
* The `seenPatterns` set of joined strings (`"x-0-2-…"`) is modelled by a
  list of the fret patterns themselves: joining with `"-"` is injective
  on fret patterns, so membership of the joined string in the set is
  equivalent to membership of the pattern list.
* The mutation-based backtracking (`walk` writing into `selection` and
  calling `recordCandidate`) is modelled by materialising the list of
  complete selections that `walk` visits, in visiting order, and folding
  the (early-return style) `recordCandidate` over that list, threading
  the `(seenPatterns, voicings)` state explicitly.
-/

namespace GuitarChords

abbrev PitchClass := Nat

/-- `type FretValue = number | 'x'`. -/
inductive FretValue where
  | num : Nat → FretValue
  | x : FretValue
deriving DecidableEq

/-- `interface CandidateFret { fret; pitchClass }`. -/
structure CandidateFret where
  fret : Nat
  pitchClass : PitchClass
deriving DecidableEq

/-- The `fretSpan: { min; max }` field of a voicing. -/
structure FretSpan where
  min : Nat
  max : Nat
deriving DecidableEq

/-- `interface ChordVoicing`. -/
structure ChordVoicing where
  frets : List FretValue
  stringPitches : List (Option PitchClass)
  fretSpan : FretSpan
  windowStart : Nat
  windowEnd : Nat
deriving DecidableEq

/-- `interface ScoredVoicing`; the score lives in `WithTop ℚ` (see header). -/
structure ScoredVoicing where
  voicing : ChordVoicing
  score : WithTop ℚ
deriving DecidableEq

/-- The barre descriptor of `ChordDiagramShape`. -/
structure Barre where
  fret : Nat
  fromString : Nat
  toString : Nat
  finger : Nat
deriving DecidableEq

/-- `interface ChordDiagramShape` from `src/types.ts`. -/
structure ChordDiagramShape where
  frets : List FretValue
  fingers : List (Option Nat)
  startFret : Nat
  barre : Option Barre
deriving DecidableEq

/-- `const STANDARD_TUNING = [4, 9, 2, 7, 11, 4]` (E A D G B E, low → high). -/
def STANDARD_TUNING : List PitchClass := [4, 9, 2, 7, 11, 4]

/-- `const TOTAL_FRETS = 12`. -/
def TOTAL_FRETS : Nat := 12

/-- `const WINDOW_FRET_SPAN = 3`. -/
def WINDOW_FRET_SPAN : Nat := 3

/-- `normalizePitch = (value) => ((value % 12) + 12) % 12`. -/
def normalizePitch (value : Int) : PitchClass := (((value % 12) + 12) % 12).toNat

/-- `Math.min(...l)` over a list known to be nonempty; `d` is a default for
the (never reached) empty case. -/
def minimumD (l : List Nat) (d : Nat) : Nat :=
  match l with
  | [] => d
  | a :: as => as.foldl Nat.min a

/-- `Math.max(...l)` over a list known to be nonempty; `d` is a default for
the (never reached) empty case. -/
def maximumD (l : List Nat) (d : Nat) : Nat :=
  match l with
  | [] => d
  | a :: as => as.foldl Nat.max a

/-- `getFifthIntervals`: keep the intervals in the fifth family {6,7,8}. -/
def getFifthIntervals (intervals : List Nat) : List Nat :=
  intervals.filter (fun interval => interval == 6 || interval == 7 || interval == 8)

/-- `getRequiredIntervals`: the root, the first third (3 or 4) if present,
and every fifth-family interval. -/
def getRequiredIntervals (intervals : List Nat) : List Nat :=
  let third := intervals.find? (fun interval => interval == 3 || interval == 4)
  let fifths := getFifthIntervals intervals
  [0] ++ (match third with | some t => [t] | none => []) ++ fifths

/-- `hasFifth`: does the voicing sound a fifth-family interval of the chord? -/
def hasFifth (voicing : ChordVoicing) (root : PitchClass) (intervals : List Nat) : Bool :=
  let fifthIntervals := getFifthIntervals intervals
  voicing.stringPitches.any (fun pitch =>
    match pitch with
    | none => false
    | some p => fifthIntervals.contains (normalizePitch ((p : Int) - (root : Int))))

/-- The sounded (non-`'x'`) fret numbers of a fret array, in string order
(`voicing.frets.filter((fret) => fret !== 'x')`). -/
def soundedFrets (frets : List FretValue) : List Nat :=
  frets.filterMap (fun f => match f with | FretValue.num n => some n | FretValue.x => none)

/-- The `jumpPenalty` loop of `getVoicingScore`: for every adjacent pair of
entries that are both sounded, add `diff - 3` whenever `diff > 3`. -/
def jumpPenalty : List FretValue → Nat
  | FretValue.num a :: FretValue.num b :: rest =>
      (if 3 < ((a : Int) - (b : Int)).natAbs then ((a : Int) - (b : Int)).natAbs - 3 else 0)
        + jumpPenalty (FretValue.num b :: rest)
  | _ :: rest => jumpPenalty rest
  | [] => 0

/-- `bassIndex`/`bassPitch` of `getVoicingScore`: the recorded pitch of the
lowest-index sounded string (`null` when every string is muted). -/
def bassPitchOf (voicing : ChordVoicing) : Option PitchClass :=
  match voicing.frets.findIdx? (fun f => f != FretValue.x) with
  | none => none
  | some i => voicing.stringPitches.getD i none

/-- `getVoicingScore(voicing, root, targetStrings)`. -/
def getVoicingScore (voicing : ChordVoicing) (root : PitchClass) (targetStrings : Nat) :
    WithTop ℚ :=
  let frets := soundedFrets voicing.frets
  if frets.isEmpty then ⊤
  else
    let minFret := minimumD frets 0
    let maxFret := maximumD frets 0
    let spanPenalty := (maxFret - minFret) * 2
    let mutedCount := (voicing.frets.filter (fun f => f == FretValue.x)).length
    let jump := jumpPenalty voicing.frets
    let bassPitch := bassPitchOf voicing
    let bassPenalty : Nat := match bassPitch with
      | some p => if p ≠ root then 2 else 0
      | none => 0
    let stringPenalty := ((targetStrings : Int) - (frets.length : Int)).natAbs
    ((spanPenalty + jump + mutedCount + bassPenalty + stringPenalty : ℚ)
        + (minFret : ℚ) * (0.2 : ℚ) : ℚ)

/-- `windowStart` of `generateChordVoicings`: `allowOpen ? 0 : startFret`. -/
def windowStartFor (startFret : Nat) : Nat := if startFret ≤ 1 then 0 else startFret

/-- `windowEnd` of `generateChordVoicings`:
`Math.min(windowStart + WINDOW_FRET_SPAN, TOTAL_FRETS)`. -/
def windowEndFor (startFret : Nat) : Nat :=
  min (windowStartFor startFret + WINDOW_FRET_SPAN) TOTAL_FRETS

/-- The frets of the active window, `windowStart, …, windowEnd` (empty when
`windowEnd < windowStart`, exactly as the `for` loop then runs zero times). -/
def fretsInWindow (windowStart windowEnd : Nat) : List Nat :=
  List.range' windowStart (windowEnd + 1 - windowStart)

/-- One entry of `candidatesPerString`: the `(fret, pitchClass)` pairs of the
window whose pitch-class is a chord tone. -/
def candidatesForString (chordTones : List PitchClass) (windowStart windowEnd : Nat)
    (openPitch : PitchClass) : List CandidateFret :=
  (fretsInWindow windowStart windowEnd).filterMap (fun (fret : Nat) =>
    let pitchClass := normalizePitch ((openPitch : Int) + (fret : Int))
    if chordTones.contains pitchClass then some (CandidateFret.mk fret pitchClass) else none)

/-- One entry of `hasRequiredToneOnString`: can the string sound a required
interval somewhere in the window? -/
def hasRequiredToneOnString (requiredIntervals : List Nat) (root : PitchClass)
    (windowStart windowEnd : Nat) (openPitch : PitchClass) : Bool :=
  (fretsInWindow windowStart windowEnd).any (fun fret =>
    requiredIntervals.contains (normalizePitch ((openPitch : Int) + (fret : Int) - (root : Int))))

/-- `const minStrings = 3`. -/
def minStrings : Nat := 3

/-- `const maxStrings = 6`. -/
def maxStrings : Nat := 6

/-- The per-search context threaded into `recordCandidate` (captured by the
closure in the source). -/
structure SearchEnv where
  root : PitchClass
  requiredIntervals : List Nat
  hasRequiredTone : List Bool
  windowStart : Nat
  windowEnd : Nat

/-- The fret array entry produced from one selection slot
(`choice ? choice.fret : 'x'`). -/
def fretOfChoice (choice : Option CandidateFret) : FretValue :=
  match choice with
  | some c => FretValue.num c.fret
  | none => FretValue.x

/-- The early-return chain of `recordCandidate`, rendered as an `Option`:
`none` when the candidate selection is rejected, `some v` when the voicing
`v` is pushed. The checks appear in source order. -/
def candidateChecks (env : SearchEnv) (seenPatterns : List (List FretValue))
    (selection : List (Option CandidateFret)) : Option ChordVoicing :=
  let activeStrings := selection.filterMap id
  let activeCount := activeStrings.length
  if activeCount < minStrings ∨ maxStrings < activeCount then none
  else
    let intervalsPresent := activeStrings.map
      (fun choice => normalizePitch ((choice.pitchClass : Int) - (env.root : Int)))
    let frets := activeStrings.map (fun choice => choice.fret)
    if ¬ (∀ interval ∈ env.requiredIntervals, interval ∈ intervalsPresent) then none
    else
      let minFret := minimumD frets 0
      let maxFret := maximumD frets 0
      if WINDOW_FRET_SPAN < maxFret - minFret then none
      else
        let strings := selection.map fretOfChoice
        if ∃ stringIndex < strings.length,
            strings.getD stringIndex FretValue.x = FretValue.x ∧
            env.hasRequiredTone.getD stringIndex false = true then none
        else
          if strings ∈ seenPatterns then none
          else
            some { frets := strings,
                   stringPitches := selection.map (fun choice => choice.map (fun c => c.pitchClass)),
                   fretSpan := ⟨minFret, maxFret⟩,
                   windowStart := env.windowStart,
                   windowEnd := env.windowEnd }

/-- `recordCandidate`, as a step of the fold over complete selections: on
rejection the `(seenPatterns, voicings)` state is unchanged, on success the
pattern is added to the seen set and the voicing appended to the output. -/
def recordCandidate (env : SearchEnv) (st : List (List FretValue) × List ChordVoicing)
    (selection : List (Option CandidateFret)) : List (List FretValue) × List ChordVoicing :=
  match candidateChecks env st.1 selection with
  | none => st
  | some v => (v.frets :: st.1, st.2 ++ [v])

/-- `walk`: the complete 6-slot selections visited, in visiting order (the
mute branch first, then each candidate fret in order), with the source's
pruning on the active-string count. -/
def walk : List (List CandidateFret) → Nat → List (List (Option CandidateFret))
  | [], _ => [[]]
  | cands :: rest, activeCount =>
      if maxStrings < activeCount ∨ activeCount + (cands :: rest).length < minStrings then []
      else
        (walk rest activeCount).map (fun sel => none :: sel)
          ++ cands.flatMap (fun candidate =>
              (walk rest (activeCount + 1)).map (fun sel => some candidate :: sel))

/-- The sorted relative-interval list of the chord
(`chordTones.map(tone => normalizePitch(tone - root)).sort((a, b) => a - b)`). -/
def chordIntervals (chordTones : List PitchClass) (root : PitchClass) : List Nat :=
  (chordTones.map (fun tone => normalizePitch ((tone : Int) - (root : Int)))).insertionSort
    (fun a b => a ≤ b)

/-- `candidatesPerString` of `generateChordVoicings`. -/
def candidatesPerString (chordTones : List PitchClass) (startFret : Nat) :
    List (List CandidateFret) :=
  STANDARD_TUNING.map
    (candidatesForString chordTones (windowStartFor startFret) (windowEndFor startFret))

/-- The `SearchEnv` assembled by `generateChordVoicings`. -/
def searchEnv (chordTones : List PitchClass) (root : PitchClass) (startFret : Nat) : SearchEnv :=
  { root := root,
    requiredIntervals := getRequiredIntervals (chordIntervals chordTones root),
    hasRequiredTone := STANDARD_TUNING.map
      (hasRequiredToneOnString (getRequiredIntervals (chordIntervals chordTones root)) root
        (windowStartFor startFret) (windowEndFor startFret)),
    windowStart := windowStartFor startFret,
    windowEnd := windowEndFor startFret }

/-- The `voicings` array after `walk(0, 0)` has run: the fold of
`recordCandidate` over every visited complete selection. -/
def enumerateVoicings (chordTones : List PitchClass) (root : PitchClass) (startFret : Nat) :
    List ChordVoicing :=
  ((walk (candidatesPerString chordTones startFret) 0).foldl
    (recordCandidate (searchEnv chordTones root startFret)) ([], [])).2

/-- The ordering used by `.sort((a, b) => a.score - b.score)`. -/
def scoredLE (a b : ScoredVoicing) : Prop := a.score ≤ b.score

instance : DecidableRel scoredLE := fun a b => inferInstanceAs (Decidable (a.score ≤ b.score))

instance : IsTotal ScoredVoicing scoredLE := ⟨fun a b => le_total a.score b.score⟩

instance : IsTrans ScoredVoicing scoredLE := ⟨fun _ _ _ h₁ h₂ => le_trans h₁ h₂⟩

/-- The `filteredVoicings` stage of `generateChordVoicings`: apply the
fifth-completeness filter when some enumerated voicing sounds a fifth. -/
def filteredVoicings (chordTones : List PitchClass) (root : PitchClass) (startFret : Nat) :
    List ChordVoicing :=
  let intervals := chordIntervals chordTones root
  let voicings := enumerateVoicings chordTones root startFret
  let hasCompleteTriad := voicings.any (fun voicing => hasFifth voicing root intervals)
  if hasCompleteTriad then voicings.filter (fun voicing => hasFifth voicing root intervals)
  else voicings

/-- `generateChordVoicings(chordTones, root, startFret)`: score the filtered
voicings against the target string count 4 and sort ascending by score. -/
def generateChordVoicings (chordTones : List PitchClass) (root : PitchClass) (startFret : Nat) :
    List ScoredVoicing :=
  ((filteredVoicings chordTones root startFret).map (fun voicing =>
    ScoredVoicing.mk voicing (getVoicingScore voicing root 4))).insertionSort scoredLE

/-- The `(fret, index)` pairs of the fretted (numeric and `> 0`) strings, as
collected by `detectBarre` and `assignFingerNumbers`. -/
def frettedNotes (frets : List FretValue) : List (Nat × Nat) :=
  frets.enum.filterMap (fun p =>
    match p.2 with
    | FretValue.num n => if 0 < n then some (n, p.1) else none
    | FretValue.x => none)

/-- `detectBarre(frets)`. -/
def detectBarre (frets : List FretValue) : Option Barre :=
  let fretted := frettedNotes frets
  if fretted.isEmpty then none
  else
    let minFret := minimumD (fretted.map (fun note => note.1)) 0
    let barreStrings := (fretted.filter (fun note => note.1 == minFret)).map (fun note => note.2)
    if barreStrings.length < 2 then none
    else some ⟨minFret, minimumD barreStrings 0, maximumD barreStrings 0, 1⟩

/-- Helper for `dedupFirst`: the already-emitted values are accumulated. -/
def dedupFirstAux : List Nat → List Nat → List Nat
  | [], _ => []
  | a :: as, seen => if a ∈ seen then dedupFirstAux as seen else a :: dedupFirstAux as (a :: seen)

/-- `Array.from(new Set(l))`: de-duplicate keeping first occurrences. -/
def dedupFirst (l : List Nat) : List Nat := dedupFirstAux l []

/-- `assignFingerNumbers(frets)`. -/
def assignFingerNumbers (frets : List FretValue) : List (Option Nat) :=
  let fretted := frettedNotes frets
  let fingers : List (Option Nat) := List.replicate 6 none
  if fretted.isEmpty then fingers
  else
    let uniqueFrets :=
      (dedupFirst (fretted.map (fun note => note.1))).insertionSort (fun a b => a ≤ b)
    uniqueFrets.enum.foldl (fun acc p =>
      let finger := min (p.1 + 1) 4
      (fretted.filter (fun note => note.1 == p.2)).foldl
        (fun acc note => acc.set note.2 (some finger)) acc) fingers

/-- `buildChordShape(frets, providedFingers?)`; the optional argument is
passed explicitly as an `Option`. -/
def buildChordShape (frets : List FretValue)
    (providedFingers : Option (List (Option Nat))) : ChordDiagramShape :=
  let numericFrets := frets.filterMap (fun f =>
    match f with
    | FretValue.num n => if 0 < n then some n else none
    | FretValue.x => none)
  let minFret := if numericFrets.isEmpty then 1 else minimumD numericFrets 1
  let startFret := if 1 < minFret then minFret else 1
  let fingers := providedFingers.getD (assignFingerNumbers frets)
  let barre := detectBarre frets
  ⟨frets, fingers, startFret, barre⟩

/-- One iteration of the `for (startFret = 1; …; startFret += 1)` loop of
`getBestVoicingShape`, acting on the `best` accumulator. -/
def bestStep (chordTones : List PitchClass) (root : PitchClass)
    (best : Option ScoredVoicing) (startFret : Nat) : Option ScoredVoicing :=
  let scored := generateChordVoicings chordTones root startFret
  match scored.head? with
  | none => best
  | some candidate =>
      let adjustedScore := candidate.score + ((startFret : ℚ) * (0.3 : ℚ) : ℚ)
      match best with
      | none => some candidate
      | some b =>
          if adjustedScore < b.score + ((b.voicing.windowStart : ℚ) * (0.3 : ℚ) : ℚ) then
            some candidate
          else some b

/-- `getBestVoicingShape(chordTones, root)`. -/
def getBestVoicingShape (chordTones : List PitchClass) (root : PitchClass) : ChordDiagramShape :=
  match (List.range' 1 TOTAL_FRETS).foldl (bestStep chordTones root) none with
  | none => buildChordShape (List.replicate 6 FretValue.x) none
  | some best => buildChordShape best.voicing.frets none

/-! ## The diatonic-diagram layer (`getDiatonicChordDiagrams` and helpers) -/

/-- `enum SpellingMode` from `src/types.ts` (unused by the engine). -/
inductive SpellingMode where
  | Auto : SpellingMode
  | Sharps : SpellingMode
  | Flats : SpellingMode
deriving DecidableEq

/-- `type Tonality = 'major' | 'minor'`. -/
inductive Tonality where
  | major : Tonality
  | minor : Tonality
deriving DecidableEq

/-- The string rendering of a `Tonality` (used by the `id` template). -/
def Tonality.str : Tonality → String
  | Tonality.major => "major"
  | Tonality.minor => "minor"

/-- `interface CurrentKeyData` from `src/types.ts`. -/
structure CurrentKeyData where
  index : Nat
  major : String
  minor : String
deriving DecidableEq

/-- `interface DiatonicChordDiagram` from `src/types.ts`. -/
structure DiatonicChordDiagram where
  id : String
  degree : String
  name : String
  shape : ChordDiagramShape
deriving DecidableEq

instance : Inhabited DiatonicChordDiagram :=
  ⟨⟨"", "", "", ⟨[], [], 1, none⟩⟩⟩

/-- `const MAJOR_INTERVALS`. -/
def MAJOR_INTERVALS : List Nat := [0, 2, 4, 5, 7, 9, 11]

/-- `const MINOR_INTERVALS`. -/
def MINOR_INTERVALS : List Nat := [0, 2, 3, 5, 7, 8, 10]

/-- `const ROMAN_MAJOR`. -/
def ROMAN_MAJOR : List String := ["I", "ii", "iii", "IV", "V", "vi", "vii°"]

/-- `const ROMAN_MINOR`. -/
def ROMAN_MINOR : List String := ["i", "ii°", "III", "iv", "v", "VI", "VII"]

/-- `const LETTERS = ['C','D','E','F','G','A','B']`. -/
def LETTERS : List Char := ['C', 'D', 'E', 'F', 'G', 'A', 'B']

/-- `LETTER_TO_PC`, as a partial map (a JS lookup of a key outside the
record yields `undefined`, modelled by `none`). -/
def LETTER_TO_PC (letter : Char) : Option PitchClass :=
  if letter = 'C' then some 0
  else if letter = 'D' then some 2
  else if letter = 'E' then some 4
  else if letter = 'F' then some 5
  else if letter = 'G' then some 7
  else if letter = 'A' then some 9
  else if letter = 'B' then some 11
  else none

/-- `PREFERRED_SHAPES`, as an association list keyed by chord name. -/
def PREFERRED_SHAPES : List (String × (List FretValue × List (Option Nat))) :=
  [("C", ([FretValue.x, FretValue.num 3, FretValue.num 2, FretValue.num 0, FretValue.num 1,
           FretValue.num 0], [none, some 3, some 2, none, some 1, none])),
   ("D", ([FretValue.x, FretValue.x, FretValue.num 0, FretValue.num 2, FretValue.num 3,
           FretValue.num 2], [none, none, none, some 1, some 3, some 2])),
   ("E", ([FretValue.num 0, FretValue.num 2, FretValue.num 2, FretValue.num 1, FretValue.num 0,
           FretValue.num 0], [none, some 2, some 3, some 1, none, none])),
   ("G", ([FretValue.num 3, FretValue.num 2, FretValue.num 0, FretValue.num 0, FretValue.num 0,
           FretValue.num 3], [some 2, some 1, none, none, none, some 3])),
   ("A", ([FretValue.x, FretValue.num 0, FretValue.num 2, FretValue.num 2, FretValue.num 2,
           FretValue.num 0], [none, none, some 1, some 2, some 3, none])),
   ("Am", ([FretValue.x, FretValue.num 0, FretValue.num 2, FretValue.num 2, FretValue.num 1,
            FretValue.num 0], [none, none, some 2, some 3, some 1, none])),
   ("Em", ([FretValue.num 0, FretValue.num 2, FretValue.num 2, FretValue.num 0, FretValue.num 0,
            FretValue.num 0], [none, some 2, some 3, none, none, none])),
   ("Dm", ([FretValue.x, FretValue.x, FretValue.num 0, FretValue.num 2, FretValue.num 3,
            FretValue.num 1], [none, none, none, some 2, some 3, some 1])),
   ("F", ([FretValue.num 1, FretValue.num 3, FretValue.num 3, FretValue.num 2, FretValue.num 1,
           FretValue.num 1], [some 1, some 3, some 4, some 2, some 1, some 1])),
   ("Bm", ([FretValue.x, FretValue.num 2, FretValue.num 4, FretValue.num 4, FretValue.num 3,
            FretValue.num 2], [none, some 1, some 3, some 4, some 2, some 1])),
   ("B", ([FretValue.x, FretValue.num 2, FretValue.num 4, FretValue.num 4, FretValue.num 4,
           FretValue.num 2], [none, some 1, some 3, some 3, some 3, some 1]))]

/-- `note.trim()`, implemented on the underlying character list (so that
proofs can evaluate it; the app's key names carry no whitespace anyway). -/
def trimString (s : String) : String :=
  String.mk ((s.data.dropWhile Char.isWhitespace).reverse.dropWhile Char.isWhitespace).reverse

/-- `stripMinorSuffix`: `note.endsWith('m') ? note.slice(0, -1) : note`,
implemented on the underlying character list. -/
def stripMinorSuffix (note : String) : String :=
  if note.data.getLast? = some 'm' then String.mk note.data.dropLast else note

/-- The result record of `parseNoteName`. -/
structure ParsedNote where
  letter : Char
  accidental : Int
  pitchClass : PitchClass
deriving DecidableEq

/-- `parseNoteName(note)`; `none` models the JS crash/NaN paths (empty
string after trimming, or a first character that is not a note letter). -/
def parseNoteName (note : String) : Option ParsedNote :=
  let trimmed := trimString note
  match trimmed.toList with
  | [] => none
  | c :: restChars =>
      let letter := c.toUpper
      match LETTER_TO_PC letter with
      | none => none
      | some basePc =>
          let accidental := restChars.foldl
            (fun acc ch => if ch = '#' then acc + 1 else if ch = 'b' then acc - 1 else acc)
            (0 : Int)
          some ⟨letter, accidental, normalizePitch ((basePc : Int) + accidental)⟩

/-- `formatAccidental(value)`. -/
def formatAccidental (value : Int) : String :=
  if value = 0 then ""
  else if 0 < value then String.mk (List.replicate value.toNat '#')
  else String.mk (List.replicate (-value).toNat 'b')

/-- One entry of the `getScaleNotes` result. -/
structure ScaleNote where
  name : String
  pitchClass : PitchClass
deriving DecidableEq

instance : Inhabited ScaleNote := ⟨⟨"", 0⟩⟩

/-- `getScaleNotes(rootName, intervals)`; `none` when the root name does not
parse. Inside the map, `letter` always lies in `LETTERS`, so the
`LETTER_TO_PC` lookup succeeds and the `getD 0` default is never used. -/
def getScaleNotes (rootName : String) (intervals : List Nat) : Option (List ScaleNote) :=
  match parseNoteName rootName with
  | none => none
  | some parsed =>
      let rootIndex := LETTERS.findIdx (fun c => c == parsed.letter)
      some (intervals.enum.map (fun p =>
        let degree := p.1
        let interval := p.2
        let letterIndex := (rootIndex + degree) % 7
        let letter := LETTERS.getD letterIndex 'C'
        let targetPc := normalizePitch ((parsed.pitchClass : Int) + (interval : Int))
        let basePc := (LETTER_TO_PC letter).getD 0
        let diff := normalizePitch ((targetPc : Int) - (basePc : Int))
        let accidental : Int := if diff ≤ 6 then (diff : Int) else (diff : Int) - 12
        ⟨String.mk [letter] ++ formatAccidental accidental, targetPc⟩))

/-- `getChordQuality(intervals)`; the joined-string comparison of the source
is modelled by list equality (joining with `","` is injective here). -/
def getChordQuality (intervals : List Nat) : String :=
  if intervals = [0, 4, 7] then "major"
  else if intervals = [0, 3, 7] then "minor"
  else if intervals = [0, 3, 6] then "diminished"
  else if intervals = [0, 4, 8] then "augmented"
  else "major"

/-- `getChordSuffix(quality)`. -/
def getChordSuffix (quality : String) : String :=
  if quality = "minor" then "m"
  else if quality = "diminished" then "dim"
  else if quality = "augmented" then "aug"
  else ""

/-- The per-degree closure of the `scaleNotes.map` inside
`getDiatonicChordDiagrams`, taking the `(index, note)` pair. -/
def diatonicDiagramFor (scaleNotes : List ScaleNote) (tonality : Tonality)
    (degreeLabels : List String) (p : Nat × ScaleNote) : DiatonicChordDiagram :=
  let index := p.1
  let note := p.2
  let chordTones := [
    (scaleNotes.getD (index % 7) default).pitchClass,
    (scaleNotes.getD ((index + 2) % 7) default).pitchClass,
    (scaleNotes.getD ((index + 4) % 7) default).pitchClass]
  let intervalsFromRoot :=
    (chordTones.map (fun tone =>
      normalizePitch ((tone : Int) - (note.pitchClass : Int)))).insertionSort
      (fun a b => a ≤ b)
  let quality := getChordQuality intervalsFromRoot
  let suffix := getChordSuffix quality
  let chordName := note.name ++ suffix
  let preferredShape := (PREFERRED_SHAPES.find? (fun ps => ps.1 == chordName)).map
    (fun ps => ps.2)
  let shape := match preferredShape with
    | some ps => buildChordShape ps.1 (some ps.2)
    | none => getBestVoicingShape chordTones note.pitchClass
  { id := tonality.str ++ "-" ++ toString index ++ "-" ++ chordName,
    degree := degreeLabels.getD index (toString (index + 1)),
    name := chordName,
    shape := shape }

/-- `getDiatonicChordDiagrams(currentKey, spellingMode, tonality)`; `none`
models the JS failure paths of an unparseable key root name. -/
def getDiatonicChordDiagrams (currentKey : CurrentKeyData) (spellingMode : SpellingMode)
    (tonality : Tonality) : Option (List DiatonicChordDiagram) :=
  let keyName := match tonality with
    | Tonality.major => currentKey.major
    | Tonality.minor => currentKey.minor
  let rootName := stripMinorSuffix keyName
  let intervals := match tonality with
    | Tonality.major => MAJOR_INTERVALS
    | Tonality.minor => MINOR_INTERVALS
  match getScaleNotes rootName intervals with
  | none => none
  | some scaleNotes =>
      let degreeLabels := match tonality with
        | Tonality.major => ROMAN_MAJOR
        | Tonality.minor => ROMAN_MINOR
      some (scaleNotes.enum.map (diatonicDiagramFor scaleNotes tonality degreeLabels))

/-! ## Infrastructure lemmas -/

theorem walk_length {cands : List (List CandidateFret)} :
    ∀ {activeCount : Nat} {sel : List (Option CandidateFret)},
      sel ∈ walk cands activeCount → sel.length = cands.length := by
  induction cands with
  | nil =>
      intro ac sel h
      simp only [walk, List.mem_singleton] at h
      simp [h]
  | cons cs rest ih =>
      intro ac sel h
      simp only [walk] at h
      split at h
      · simp at h
      · rcases List.mem_append.mp h with h' | h'
        · rcases List.mem_map.mp h' with ⟨sel', hsel', rfl⟩
          simp [ih hsel']
        · rcases List.mem_flatMap.mp h' with ⟨c, _, hc⟩
          rcases List.mem_map.mp hc with ⟨sel', hsel', rfl⟩
          simp [ih hsel']

theorem walk_choices {cands : List (List CandidateFret)} :
    ∀ {activeCount : Nat} {sel : List (Option CandidateFret)},
      sel ∈ walk cands activeCount →
      List.Forall₂ (fun choice cs => ∀ c, choice = some c → c ∈ cs) sel cands := by
  induction cands with
  | nil =>
      intro ac sel h
      simp only [walk, List.mem_singleton] at h
      simp [h]
  | cons cs rest ih =>
      intro ac sel h
      simp only [walk] at h
      split at h
      · simp at h
      · rcases List.mem_append.mp h with h' | h'
        · rcases List.mem_map.mp h' with ⟨sel', hsel', rfl⟩
          exact List.Forall₂.cons (by intro c hc; cases hc) (ih hsel')
        · rcases List.mem_flatMap.mp h' with ⟨c, hcmem, hc⟩
          rcases List.mem_map.mp hc with ⟨sel', hsel', rfl⟩
          refine List.Forall₂.cons ?_ (ih hsel')
          intro c' hc'
          cases hc'
          exact hcmem

theorem candidateChecks_eq_some {env : SearchEnv} {seen : List (List FretValue)}
    {sel : List (Option CandidateFret)} {v : ChordVoicing}
    (h : candidateChecks env seen sel = some v) :
    v.frets = sel.map fretOfChoice ∧
    v.stringPitches = sel.map (fun choice => choice.map (fun c => c.pitchClass)) ∧
    v.windowStart = env.windowStart ∧
    v.windowEnd = env.windowEnd ∧
    v.fretSpan = ⟨minimumD ((sel.filterMap id).map (fun c => c.fret)) 0,
                  maximumD ((sel.filterMap id).map (fun c => c.fret)) 0⟩ ∧
    minStrings ≤ (sel.filterMap id).length ∧
    (sel.filterMap id).length ≤ maxStrings ∧
    (∀ interval ∈ env.requiredIntervals,
      interval ∈ (sel.filterMap id).map
        (fun choice => normalizePitch ((choice.pitchClass : Int) - (env.root : Int)))) ∧
    maximumD ((sel.filterMap id).map (fun c => c.fret)) 0
      - minimumD ((sel.filterMap id).map (fun c => c.fret)) 0 ≤ WINDOW_FRET_SPAN ∧
    (¬ ∃ stringIndex < (sel.map fretOfChoice).length,
        (sel.map fretOfChoice).getD stringIndex FretValue.x = FretValue.x ∧
        env.hasRequiredTone.getD stringIndex false = true) ∧
    sel.map fretOfChoice ∉ seen := by
  simp only [candidateChecks] at h
  split_ifs at h with h1 h2 h3 h4 h5
  · push_neg at h2
    injection h with h'
    subst h'
    refine ⟨rfl, rfl, rfl, rfl, rfl, ?_, ?_, h2, ?_, h4, h5⟩
    · omega
    · omega
    · omega

theorem mem_foldl_recordCandidate {env : SearchEnv} :
    ∀ {sels : List (List (Option CandidateFret))}
      {st : List (List FretValue) × List ChordVoicing} {v : ChordVoicing},
      v ∈ (sels.foldl (recordCandidate env) st).2 →
      v ∈ st.2 ∨ ∃ sel ∈ sels, ∃ seen, candidateChecks env seen sel = some v := by
  intro sels
  induction sels with
  | nil => intro st v h; exact Or.inl h
  | cons sel rest ih =>
      intro st v h
      rw [List.foldl_cons] at h
      rcases ih h with h' | ⟨sel', hmem, seen, hchk⟩
      · unfold recordCandidate at h'
        rcases hcc : candidateChecks env st.1 sel with _ | w
        · rw [hcc] at h'
          exact Or.inl h'
        · rw [hcc] at h'
          simp only [List.mem_append, List.mem_singleton] at h'
          rcases h' with h'' | rfl
          · exact Or.inl h''
          · exact Or.inr ⟨sel, by simp, st.1, hcc⟩
      · exact Or.inr ⟨sel', List.mem_cons_of_mem _ hmem, seen, hchk⟩

/-- The de-duplication invariant maintained by the `recordCandidate` fold:
every recorded pattern is in the seen set, and recorded patterns are
pairwise distinct. -/
def PatternsDistinct (st : List (List FretValue) × List ChordVoicing) : Prop :=
  (∀ v ∈ st.2, v.frets ∈ st.1) ∧ st.2.Pairwise (fun a b => a.frets ≠ b.frets)

theorem foldl_recordCandidate_distinct {env : SearchEnv} :
    ∀ {sels : List (List (Option CandidateFret))}
      {st : List (List FretValue) × List ChordVoicing},
      PatternsDistinct st → PatternsDistinct (sels.foldl (recordCandidate env) st) := by
  intro sels
  induction sels with
  | nil => intro st h; exact h
  | cons sel rest ih =>
      intro st h
      rw [List.foldl_cons]
      refine ih ?_
      rcases hcc : candidateChecks env st.1 sel with _ | w
      · have hrc : recordCandidate env st sel = st := by
          simp [recordCandidate, hcc]
        rw [hrc]
        exact h
      · obtain ⟨hseen, hpw⟩ := h
        obtain ⟨hf, -, -, -, -, -, -, -, -, -, hnot⟩ := candidateChecks_eq_some hcc
        have hrc : recordCandidate env st sel = (w.frets :: st.1, st.2 ++ [w]) := by
          simp [recordCandidate, hcc]
        rw [hrc]
        constructor
        · intro v hv
          simp only [List.mem_append, List.mem_singleton] at hv
          rcases hv with hv | rfl
          · exact List.mem_cons_of_mem _ (hseen v hv)
          · rw [hf]; exact List.mem_cons_self _ _
        · rw [List.pairwise_append]
          refine ⟨hpw, List.pairwise_singleton _ _, ?_⟩
          intro a ha b hb
          simp only [List.mem_singleton] at hb
          subst hb
          intro heq
          exact hnot (by rw [← hf, ← heq]; exact hseen a ha)

theorem enumerateVoicings_mem {chordTones : List PitchClass} {root : PitchClass}
    {startFret : Nat} {v : ChordVoicing} (h : v ∈ enumerateVoicings chordTones root startFret) :
    ∃ sel ∈ walk (candidatesPerString chordTones startFret) 0,
      ∃ seen, candidateChecks (searchEnv chordTones root startFret) seen sel = some v := by
  unfold enumerateVoicings at h
  rcases mem_foldl_recordCandidate h with h' | h'
  · simp at h'
  · exact h'

theorem enumerateVoicings_pairwise (chordTones : List PitchClass) (root : PitchClass)
    (startFret : Nat) :
    (enumerateVoicings chordTones root startFret).Pairwise (fun a b => a.frets ≠ b.frets) := by
  unfold enumerateVoicings
  exact (foldl_recordCandidate_distinct (by constructor <;> simp)).2

theorem mem_filteredVoicings {chordTones : List PitchClass} {root : PitchClass}
    {startFret : Nat} {v : ChordVoicing} (h : v ∈ filteredVoicings chordTones root startFret) :
    v ∈ enumerateVoicings chordTones root startFret := by
  simp only [filteredVoicings] at h
  split at h
  · exact (List.mem_filter.mp h).1
  · exact h

theorem filteredVoicings_sublist (chordTones : List PitchClass) (root : PitchClass)
    (startFret : Nat) :
    (filteredVoicings chordTones root startFret).Sublist
      (enumerateVoicings chordTones root startFret) := by
  simp only [filteredVoicings]
  split
  · exact List.filter_sublist _
  · exact List.Sublist.refl _

theorem mem_generateChordVoicings {chordTones : List PitchClass} {root : PitchClass}
    {startFret : Nat} {sv : ScoredVoicing}
    (h : sv ∈ generateChordVoicings chordTones root startFret) :
    sv.voicing ∈ filteredVoicings chordTones root startFret ∧
    sv.score = getVoicingScore sv.voicing root 4 := by
  unfold generateChordVoicings at h
  have hperm := (List.perm_insertionSort scoredLE
    ((filteredVoicings chordTones root startFret).map (fun voicing =>
      ScoredVoicing.mk voicing (getVoicingScore voicing root 4))))
  have h' : sv ∈ (filteredVoicings chordTones root startFret).map (fun voicing =>
      ScoredVoicing.mk voicing (getVoicingScore voicing root 4)) := hperm.subset h
  rcases List.mem_map.mp h' with ⟨v, hv, rfl⟩
  exact ⟨hv, rfl⟩

theorem generateChordVoicings_sorted (chordTones : List PitchClass) (root : PitchClass)
    (startFret : Nat) :
    (generateChordVoicings chordTones root startFret).Pairwise scoredLE := by
  unfold generateChordVoicings
  exact List.sorted_insertionSort scoredLE _

theorem generateChordVoicings_pairwise (chordTones : List PitchClass) (root : PitchClass)
    (startFret : Nat) :
    (generateChordVoicings chordTones root startFret).Pairwise
      (fun a b => a.voicing.frets ≠ b.voicing.frets) := by
  unfold generateChordVoicings
  have h1 : (filteredVoicings chordTones root startFret).Pairwise
      (fun a b => a.frets ≠ b.frets) :=
    List.Pairwise.sublist (filteredVoicings_sublist chordTones root startFret)
      (enumerateVoicings_pairwise chordTones root startFret)
  have h2 : ((filteredVoicings chordTones root startFret).map (fun voicing =>
      ScoredVoicing.mk voicing (getVoicingScore voicing root 4))).Pairwise
      (fun a b => a.voicing.frets ≠ b.voicing.frets) :=
    h1.map _ (fun a b h => h)
  have hperm := List.perm_insertionSort scoredLE
    ((filteredVoicings chordTones root startFret).map (fun voicing =>
      ScoredVoicing.mk voicing (getVoicingScore voicing root 4)))
  exact (hperm.pairwise_iff (fun h => Ne.symm h)).mpr h2

theorem soundedFrets_map_fretOfChoice (sel : List (Option CandidateFret)) :
    soundedFrets (sel.map fretOfChoice) = (sel.filterMap id).map (fun c => c.fret) := by
  induction sel with
  | nil => rfl
  | cons c rest ih =>
      cases c <;> simp [soundedFrets, fretOfChoice, List.filterMap_cons] at ih ⊢ <;> exact ih

theorem stringPitches_filterMap (sel : List (Option CandidateFret)) :
    (sel.map (fun choice => choice.map (fun c => c.pitchClass))).filterMap id
      = (sel.filterMap id).map (fun c => c.pitchClass) := by
  induction sel with
  | nil => rfl
  | cons c rest ih =>
      cases c <;> simp [List.filterMap_cons] at ih ⊢ <;> exact ih

theorem forall₂_getElem? {α β : Type} {R : α → β → Prop} {l₁ : List α} {l₂ : List β}
    (h : List.Forall₂ R l₁ l₂) {i : Nat} {a : α} {b : β}
    (h₁ : l₁[i]? = some a) (h₂ : l₂[i]? = some b) : R a b := by
  induction h generalizing i with
  | nil => simp at h₁
  | cons hr _ ih =>
      cases i with
      | zero =>
          simp only [List.getElem?_cons_zero, Option.some.injEq] at h₁ h₂
          rwa [h₁, h₂] at hr
      | succ j =>
          simp only [List.getElem?_cons_succ] at h₁ h₂
          exact ih h₁ h₂

theorem mem_candidatesForString {chordTones : List PitchClass} {windowStart windowEnd : Nat}
    {openPitch : PitchClass} {c : CandidateFret}
    (h : c ∈ candidatesForString chordTones windowStart windowEnd openPitch) :
    windowStart ≤ c.fret ∧ c.fret ≤ windowEnd ∧
    c.pitchClass = normalizePitch ((openPitch : Int) + (c.fret : Int)) ∧
    c.pitchClass ∈ chordTones := by
  unfold candidatesForString at h
  rcases List.mem_filterMap.mp h with ⟨fret, hfret, hsome⟩
  simp only at hsome
  split_ifs at hsome with hc
  injection hsome with h'
  subst h'
  have hr := List.mem_range'_1.mp hfret
  unfold fretsInWindow at hfret
  refine ⟨hr.1, ?_, rfl, ?_⟩
  · show fret ≤ windowEnd
    have := hr.2
    omega
  · simpa [List.contains, List.elem_iff] using hc

/-- The relative intervals (against `root`) of the pitch-classes actually
sounded by a voicing. -/
def soundedIntervalList (v : ChordVoicing) (root : PitchClass) : List Nat :=
  (v.stringPitches.filterMap id).map
    (fun (p : PitchClass) => normalizePitch ((p : Int) - (root : Int)))

theorem zero_mem_getRequiredIntervals (l : List Nat) : 0 ∈ getRequiredIntervals l := by
  simp [getRequiredIntervals]

theorem third_mem_getRequiredIntervals {l : List Nat} {t : Nat}
    (h : l.find? (fun i => i == 3 || i == 4) = some t) : t ∈ getRequiredIntervals l := by
  simp [getRequiredIntervals, h]

theorem fifth_mem_getRequiredIntervals {l : List Nat} {i : Nat} (hi : i ∈ l)
    (hf : i = 6 ∨ i = 7 ∨ i = 8) : i ∈ getRequiredIntervals l := by
  have : i ∈ getFifthIntervals l := by
    refine List.mem_filter.mpr ⟨hi, ?_⟩
    rcases hf with rfl | rfl | rfl <;> simp
  simp only [getRequiredIntervals, List.append_assoc, List.mem_append]
  exact Or.inr (Or.inr this)

/-- Per-voicing facts that hold for every member of a search output:
required-interval coverage, fret span within the window width, and the
sounded-string count within `[minStrings, maxStrings]`. -/
theorem generate_voicing_props {chordTones : List PitchClass} {root : PitchClass}
    {startFret : Nat} {sv : ScoredVoicing}
    (h : sv ∈ generateChordVoicings chordTones root startFret) :
    (∀ i ∈ getRequiredIntervals (chordIntervals chordTones root),
      i ∈ soundedIntervalList sv.voicing root) ∧
    maximumD (soundedFrets sv.voicing.frets) 0
      - minimumD (soundedFrets sv.voicing.frets) 0 ≤ WINDOW_FRET_SPAN ∧
    minStrings ≤ (soundedFrets sv.voicing.frets).length ∧
    (soundedFrets sv.voicing.frets).length ≤ maxStrings := by
  obtain ⟨hvf, -⟩ := mem_generateChordVoicings h
  have hv := mem_filteredVoicings hvf
  obtain ⟨sel, -, seen, hchk⟩ := enumerateVoicings_mem hv
  obtain ⟨hfrets, hsp, -, -, -, hmin, hmax, hcov, hspan, -, -⟩ := candidateChecks_eq_some hchk
  have hsounded : soundedFrets sv.voicing.frets
      = (sel.filterMap id).map (fun c => c.fret) := by
    rw [hfrets, soundedFrets_map_fretOfChoice]
  have hpitches : soundedIntervalList sv.voicing root
      = (sel.filterMap id).map
          (fun choice => normalizePitch ((choice.pitchClass : Int) - (root : Int))) := by
    rw [soundedIntervalList, hsp, stringPitches_filterMap, List.map_map]
    rfl
  refine ⟨?_, ?_, ?_, ?_⟩
  · intro i hi
    rw [hpitches]
    exact hcov i hi
  · rw [hsounded]
    exact hspan
  · rw [hsounded, List.length_map]
    exact hmin
  · rw [hsounded, List.length_map]
    exact hmax

/-- C1: every voicing returned by `generateChordVoicings` covers the root
interval 0, the third (the first of 3/4 present in the chord's sorted
interval list), and every fifth-family interval (6/7/8) present in the
chord's interval list; its fretted span (max sounded fret − min sounded
fret) is at most the window width 3; and no two voicings of one search
output share a fret pattern. -/
theorem c1_voicing_invariant (chordTones : List PitchClass) (root : PitchClass)
    (startFret : Nat) (hroot : root ∈ chordTones) (hsf : 1 ≤ startFret) :
    (∀ sv ∈ generateChordVoicings chordTones root startFret,
      (0 : Nat) ∈ soundedIntervalList sv.voicing root ∧
      (∀ t, (chordIntervals chordTones root).find? (fun i => i == 3 || i == 4) = some t →
        t ∈ soundedIntervalList sv.voicing root) ∧
      (∀ i ∈ chordIntervals chordTones root, (i = 6 ∨ i = 7 ∨ i = 8) →
        i ∈ soundedIntervalList sv.voicing root) ∧
      maximumD (soundedFrets sv.voicing.frets) 0
        - minimumD (soundedFrets sv.voicing.frets) 0 ≤ 3) ∧
    (generateChordVoicings chordTones root startFret).Pairwise
      (fun a b => a.voicing.frets ≠ b.voicing.frets) := by
  refine ⟨?_, generateChordVoicings_pairwise chordTones root startFret⟩
  intro sv hsv
  obtain ⟨hcov, hspan, -, -⟩ := generate_voicing_props hsv
  refine ⟨?_, ?_, ?_, hspan⟩
  · exact hcov 0 (zero_mem_getRequiredIntervals _)
  · intro t ht
    exact hcov t (third_mem_getRequiredIntervals ht)
  · intro i hi hf
    exact hcov i (fifth_mem_getRequiredIntervals hi hf)

/-- Witness for C1 at the C-major triad, root 0, `startFret = 1`. -/
theorem c1_voicing_invariant_witness :
    (0 : PitchClass) ∈ ([0, 4, 7] : List PitchClass) ∧ 1 ≤ 1 ∧
    ((∀ sv ∈ generateChordVoicings [0, 4, 7] 0 1,
      (0 : Nat) ∈ soundedIntervalList sv.voicing 0 ∧
      (∀ t, (chordIntervals [0, 4, 7] 0).find? (fun i => i == 3 || i == 4) = some t →
        t ∈ soundedIntervalList sv.voicing 0) ∧
      (∀ i ∈ chordIntervals [0, 4, 7] 0, (i = 6 ∨ i = 7 ∨ i = 8) →
        i ∈ soundedIntervalList sv.voicing 0) ∧
      maximumD (soundedFrets sv.voicing.frets) 0
        - minimumD (soundedFrets sv.voicing.frets) 0 ≤ 3) ∧
    (generateChordVoicings [0, 4, 7] 0 1).Pairwise
      (fun a b => a.voicing.frets ≠ b.voicing.frets)) :=
  ⟨by decide, by decide, c1_voicing_invariant [0, 4, 7] 0 1 (by decide) (by decide)⟩

theorem normalizePitch_natCast (n : Nat) : normalizePitch (n : Int) = n % 12 := by
  unfold normalizePitch
  have h1 : ((n : Int) % 12 + 12) % 12 = ((n % 12 : Nat) : Int) := by
    push_cast
    omega
  rw [h1, Int.toNat_natCast]

/-- C10: in every voicing returned by the search, the recorded window is
`windowStart = (startFret ≤ 1 ? 0 : startFret)` and
`windowEnd = min (windowStart + 3) 12`; every sounded string's fret lies in
that window, its recorded pitch-class is `(open pitch + fret) mod 12` and a
member of the chord-tone set; muted strings record no pitch. -/
theorem c10_window_pitch_invariant (chordTones : List PitchClass) (root : PitchClass)
    (startFret : Nat) (hsf : 1 ≤ startFret) :
    ∀ sv ∈ generateChordVoicings chordTones root startFret,
      sv.voicing.windowStart = (if startFret ≤ 1 then 0 else startFret) ∧
      sv.voicing.windowEnd = min (sv.voicing.windowStart + 3) 12 ∧
      (∀ (i : Nat) (f : Nat), sv.voicing.frets[i]? = some (FretValue.num f) →
        sv.voicing.windowStart ≤ f ∧ f ≤ sv.voicing.windowEnd ∧
        sv.voicing.stringPitches[i]? = some (some ((STANDARD_TUNING.getD i 0 + f) % 12)) ∧
        (STANDARD_TUNING.getD i 0 + f) % 12 ∈ chordTones) ∧
      (∀ (i : Nat), sv.voicing.frets[i]? = some FretValue.x →
        sv.voicing.stringPitches[i]? = some none) := by
  intro sv hsv
  obtain ⟨hvf, -⟩ := mem_generateChordVoicings hsv
  have hv := mem_filteredVoicings hvf
  obtain ⟨sel, hwalk, seen, hchk⟩ := enumerateVoicings_mem hv
  obtain ⟨hfrets, hsp, hws, hwe, -, -, -, -, -, -, -⟩ := candidateChecks_eq_some hchk
  have hchoices := walk_choices hwalk
  have hfretsi : ∀ (i : Nat), sv.voicing.frets[i]? = sel[i]?.map fretOfChoice := by
    intro i
    rw [hfrets, List.getElem?_map]
  have hspi : ∀ (i : Nat), sv.voicing.stringPitches[i]?
      = sel[i]?.map (fun choice => choice.map (fun c => c.pitchClass)) := by
    intro i
    rw [hsp, List.getElem?_map]
  refine ⟨hws, ?_, ?_, ?_⟩
  · rw [hwe, hws]
    rfl
  · intro i f hif
    rw [hfretsi i] at hif
    rcases hsel : sel[i]? with _ | choice
    · rw [hsel] at hif
      exact Option.noConfusion hif
    · rw [hsel] at hif
      simp only [Option.map_some'] at hif
      injection hif with hfc
      rcases choice with _ | c
      · simp [fretOfChoice] at hfc
      · simp only [fretOfChoice] at hfc
        injection hfc with hcf
        have hcands : (candidatesPerString chordTones startFret)[i]?
            = (STANDARD_TUNING[i]?).map
              (candidatesForString chordTones (windowStartFor startFret)
                (windowEndFor startFret)) := by
          rw [candidatesPerString, List.getElem?_map]
        have hlen : i < STANDARD_TUNING.length := by
          have hi : i < sel.length := (List.getElem?_eq_some_iff.mp hsel).1
          have := walk_length hwalk
          rw [this, candidatesPerString, List.length_map] at hi
          exact hi
        obtain ⟨open_, hopen⟩ : ∃ o, STANDARD_TUNING[i]? = some o :=
          ⟨STANDARD_TUNING[i], List.getElem?_eq_some_iff.mpr ⟨hlen, rfl⟩⟩
        have hcmem : c ∈ candidatesForString chordTones (windowStartFor startFret)
            (windowEndFor startFret) open_ := by
          have hR := forall₂_getElem? hchoices hsel
            (by rw [hcands, hopen]; rfl)
          exact hR c rfl
        obtain ⟨h1, h2, h3, h4⟩ := mem_candidatesForString hcmem
        have hgetd : STANDARD_TUNING.getD i 0 = open_ := by
          rw [List.getD_eq_getElem?_getD, hopen]
          rfl
        have hpc : c.pitchClass = (STANDARD_TUNING.getD i 0 + f) % 12 := by
          rw [h3, hgetd, hcf]
          have : (open_ : Int) + (f : Int) = ((open_ + f : Nat) : Int) := by push_cast; ring
          rw [this, normalizePitch_natCast]
        refine ⟨?_, ?_, ?_, ?_⟩
        · rw [hws, ← hcf]; exact h1
        · rw [hwe, ← hcf]; exact h2
        · rw [hspi i, hsel]
          simp only [Option.map_some']
          rw [← hpc]
        · rw [← hpc]; exact h4
  · intro i hif
    rw [hfretsi i] at hif
    rcases hsel : sel[i]? with _ | choice
    · rw [hsel] at hif
      exact Option.noConfusion hif
    · rw [hsel] at hif
      simp only [Option.map_some'] at hif
      injection hif with hfc
      rcases choice with _ | c
      · rw [hspi i, hsel]; rfl
      · simp [fretOfChoice] at hfc

/-- Witness for C10 at the C-major triad, root 0, `startFret = 1`. -/
theorem c10_window_pitch_invariant_witness :
    1 ≤ 1 ∧
    (∀ sv ∈ generateChordVoicings [0, 4, 7] 0 1,
      sv.voicing.windowStart = (if 1 ≤ 1 then 0 else 1) ∧
      sv.voicing.windowEnd = min (sv.voicing.windowStart + 3) 12 ∧
      (∀ (i : Nat) (f : Nat), sv.voicing.frets[i]? = some (FretValue.num f) →
        sv.voicing.windowStart ≤ f ∧ f ≤ sv.voicing.windowEnd ∧
        sv.voicing.stringPitches[i]? = some (some ((STANDARD_TUNING.getD i 0 + f) % 12)) ∧
        (STANDARD_TUNING.getD i 0 + f) % 12 ∈ ([0, 4, 7] : List PitchClass)) ∧
      (∀ (i : Nat), sv.voicing.frets[i]? = some FretValue.x →
        sv.voicing.stringPitches[i]? = some none)) :=
  ⟨by decide, c10_window_pitch_invariant [0, 4, 7] 0 1 (by decide)⟩

/-- C5: in every voicing returned by the search, a muted string is one that
cannot produce any required interval (root/third/fifth-family) anywhere in
the active window: `hasRequiredToneOnString` is `false` for it. -/
theorem c5_mute_rule (chordTones : List PitchClass) (root : PitchClass) (startFret : Nat)
    (hsf : 1 ≤ startFret) :
    ∀ sv ∈ generateChordVoicings chordTones root startFret, ∀ (i : Nat),
      sv.voicing.frets[i]? = some FretValue.x →
      hasRequiredToneOnString (getRequiredIntervals (chordIntervals chordTones root)) root
        (windowStartFor startFret) (windowEndFor startFret)
        (STANDARD_TUNING.getD i 0) = false := by
  intro sv hsv i hif
  obtain ⟨hvf, -⟩ := mem_generateChordVoicings hsv
  have hv := mem_filteredVoicings hvf
  obtain ⟨sel, hwalk, seen, hchk⟩ := enumerateVoicings_mem hv
  obtain ⟨hfrets, -, -, -, -, -, -, -, -, hmute, -⟩ := candidateChecks_eq_some hchk
  have hilt : i < (sel.map fretOfChoice).length := by
    rw [← hfrets]
    exact (List.getElem?_eq_some_iff.mp hif).1
  have hgetd : (sel.map fretOfChoice).getD i FretValue.x = FretValue.x := by
    rw [List.getD_eq_getElem?_getD, ← hfrets, hif]
    rfl
  have hi6 : i < STANDARD_TUNING.length := by
    have hlen6 : sel.length = STANDARD_TUNING.length := by
      rw [walk_length hwalk, candidatesPerString, List.length_map]
    rw [← hlen6]
    simpa using hilt
  have hop : STANDARD_TUNING[i]? = some STANDARD_TUNING[i] :=
    List.getElem?_eq_some_iff.mpr ⟨hi6, rfl⟩
  have henv : (searchEnv chordTones root startFret).hasRequiredTone.getD i false
      = hasRequiredToneOnString (getRequiredIntervals (chordIntervals chordTones root)) root
        (windowStartFor startFret) (windowEndFor startFret) (STANDARD_TUNING.getD i 0) := by
    show (STANDARD_TUNING.map (hasRequiredToneOnString
      (getRequiredIntervals (chordIntervals chordTones root)) root
      (windowStartFor startFret) (windowEndFor startFret))).getD i false = _
    rw [List.getD_eq_getElem?_getD, List.getElem?_map, hop,
      List.getD_eq_getElem?_getD, hop]
    rfl
  by_contra hne
  apply hmute
  refine ⟨i, hilt, hgetd, ?_⟩
  rw [henv]
  revert hne
  cases hasRequiredToneOnString (getRequiredIntervals (chordIntervals chordTones root)) root
    (windowStartFor startFret) (windowEndFor startFret) (STANDARD_TUNING.getD i 0) <;> simp

/-- Witness for C5 at the C-major triad, root 0, `startFret = 1`. -/
theorem c5_mute_rule_witness :
    1 ≤ 1 ∧
    (∀ sv ∈ generateChordVoicings [0, 4, 7] 0 1, ∀ (i : Nat),
      sv.voicing.frets[i]? = some FretValue.x →
      hasRequiredToneOnString (getRequiredIntervals (chordIntervals [0, 4, 7] 0)) 0
        (windowStartFor 1) (windowEndFor 1) (STANDARD_TUNING.getD i 0) = false) :=
  ⟨by decide, c5_mute_rule [0, 4, 7] 0 1 (by decide)⟩

/-- C4: if some enumerated voicing sounds a fifth-family interval of the
chord, then every voicing in the final filtered/ranked list sounds one. -/
theorem c4_fifth_completeness (chordTones : List PitchClass) (root : PitchClass)
    (startFret : Nat) (hsf : 1 ≤ startFret)
    (hex : ∃ v ∈ enumerateVoicings chordTones root startFret,
      hasFifth v root (chordIntervals chordTones root) = true) :
    ∀ sv ∈ generateChordVoicings chordTones root startFret,
      hasFifth sv.voicing root (chordIntervals chordTones root) = true := by
  intro sv hsv
  obtain ⟨hvf, -⟩ := mem_generateChordVoicings hsv
  simp only [filteredVoicings] at hvf
  have hany : (enumerateVoicings chordTones root startFret).any
      (fun voicing => hasFifth voicing root (chordIntervals chordTones root)) = true := by
    rcases hex with ⟨v, hv, hvf'⟩
    exact List.any_eq_true.mpr ⟨v, hv, hvf'⟩
  rw [if_pos hany] at hvf
  exact (List.mem_filter.mp hvf).2

/-- Witness for C4 at the C-major triad, root 0, `startFret = 1`. -/
theorem c4_fifth_completeness_witness :
    1 ≤ 1 ∧
    (∃ v ∈ enumerateVoicings [0, 4, 7] 0 1, hasFifth v 0 (chordIntervals [0, 4, 7] 0) = true) ∧
    (∀ sv ∈ generateChordVoicings [0, 4, 7] 0 1,
      hasFifth sv.voicing 0 (chordIntervals [0, 4, 7] 0) = true) :=
  ⟨by decide, by decide, c4_fifth_completeness [0, 4, 7] 0 1 (by decide) (by decide)⟩

/-- Stated from the spec's words (claim C3): the adjacent-string jump
penalty, as a sum over the adjacent pairs of entries, `d − 3` for every
pair of sounded neighbours whose fret difference `d` exceeds 3. -/
def specAdjacentPenalty (frets : List FretValue) : Nat :=
  ((frets.zip frets.tail).filterMap (fun p =>
    match p with
    | (FretValue.num a, FretValue.num b) =>
        if 3 < ((a : Int) - (b : Int)).natAbs then some (((a : Int) - (b : Int)).natAbs - 3)
        else none
    | _ => none)).sum

/-- Stated from the spec's words (claim C3): the score of a voicing is the
sum of the span penalty `(maxFret − minFret) × 2`, the adjacent-jump
penalties, the muted-string count, `2` when the lowest-index sounded
string's pitch is not the root, `|4 − sounded count|`, and `minFret × 0.2`;
a voicing with zero sounded strings scores `⊤`. -/
def specScoreFormula (root : PitchClass) (v : ChordVoicing) : WithTop ℚ :=
  if (soundedFrets v.frets).length = 0 then ⊤
  else
    ((((maximumD (soundedFrets v.frets) 0 - minimumD (soundedFrets v.frets) 0) * 2 : ℕ)
        + specAdjacentPenalty v.frets
        + (v.frets.filter (fun f => f == FretValue.x)).length
        + ((match bassPitchOf v with
            | some p => if p ≠ root then 2 else 0
            | none => 0 : ℕ))
        + (((4 : ℕ) : Int) - ((soundedFrets v.frets).length : Int)).natAbs : ℚ)
      + ((minimumD (soundedFrets v.frets) 0 : ℚ) * (0.2 : ℚ)) : ℚ)

theorem jumpPenalty_eq_specAdjacentPenalty : ∀ frets : List FretValue,
    jumpPenalty frets = specAdjacentPenalty frets := by
  intro frets
  induction frets with
  | nil => rfl
  | cons c rest ih =>
      cases rest with
      | nil => cases c <;> rfl
      | cons c2 rest2 =>
          cases c with
          | x =>
              show jumpPenalty (FretValue.x :: c2 :: rest2) = _
              have h1 : jumpPenalty (FretValue.x :: c2 :: rest2)
                  = jumpPenalty (c2 :: rest2) := rfl
              have h2 : specAdjacentPenalty (FretValue.x :: c2 :: rest2)
                  = specAdjacentPenalty (c2 :: rest2) := by
                simp [specAdjacentPenalty, List.filterMap_cons]
              rw [h1, h2, ← ih]
          | num a =>
              cases c2 with
              | x =>
                  have h1 : jumpPenalty (FretValue.num a :: FretValue.x :: rest2)
                      = jumpPenalty (FretValue.x :: rest2) := rfl
                  have h2 : specAdjacentPenalty (FretValue.num a :: FretValue.x :: rest2)
                      = specAdjacentPenalty (FretValue.x :: rest2) := by
                    simp [specAdjacentPenalty, List.filterMap_cons]
                  rw [h1, h2, ← ih]
              | num b =>
                  have h1 : jumpPenalty (FretValue.num a :: FretValue.num b :: rest2)
                      = (if 3 < ((a : Int) - (b : Int)).natAbs
                          then ((a : Int) - (b : Int)).natAbs - 3 else 0)
                        + jumpPenalty (FretValue.num b :: rest2) := rfl
                  have h2 : specAdjacentPenalty (FretValue.num a :: FretValue.num b :: rest2)
                      = (if 3 < ((a : Int) - (b : Int)).natAbs
                          then ((a : Int) - (b : Int)).natAbs - 3 else 0)
                        + specAdjacentPenalty (FretValue.num b :: rest2) := by
                    simp only [specAdjacentPenalty, List.zip_cons_cons, List.tail_cons,
                      List.filterMap_cons]
                    split_ifs <;> simp
                  rw [h1, h2, ← ih]

theorem getVoicingScore_eq_spec (root : PitchClass) (v : ChordVoicing) :
    getVoicingScore v root 4 = specScoreFormula root v := by
  unfold getVoicingScore specScoreFormula
  rcases h : soundedFrets v.frets with _ | ⟨a, as⟩
  · simp [h]
  · simp only [h, List.isEmpty_cons, List.length_cons, Nat.succ_ne_zero, if_false,
      Bool.false_eq_true, jumpPenalty_eq_specAdjacentPenalty]

/-- C3: the search output is sorted ascending by score; each output score
equals the spec's score formula; a voicing with no sounded string scores
`⊤` (the model of `Number.POSITIVE_INFINITY`). -/
theorem c3_scoring (chordTones : List PitchClass) (root : PitchClass) (startFret : Nat)
    (hsf : 1 ≤ startFret) :
    (generateChordVoicings chordTones root startFret).Pairwise scoredLE ∧
    (∀ sv ∈ generateChordVoicings chordTones root startFret,
      sv.score = specScoreFormula root sv.voicing) ∧
    (∀ v : ChordVoicing, soundedFrets v.frets = [] → getVoicingScore v root 4 = ⊤) := by
  refine ⟨generateChordVoicings_sorted _ _ _, ?_, ?_⟩
  · intro sv hsv
    obtain ⟨-, hscore⟩ := mem_generateChordVoicings hsv
    rw [hscore, getVoicingScore_eq_spec]
  · intro v hv
    unfold getVoicingScore
    simp [hv]

/-- Witness for C3 at the C-major triad, root 0, `startFret = 1`. -/
theorem c3_scoring_witness :
    1 ≤ 1 ∧
    ((generateChordVoicings [0, 4, 7] 0 1).Pairwise scoredLE ∧
    (∀ sv ∈ generateChordVoicings [0, 4, 7] 0 1,
      sv.score = specScoreFormula 0 sv.voicing) ∧
    (∀ v : ChordVoicing, soundedFrets v.frets = [] → getVoicingScore v 0 4 = ⊤)) :=
  ⟨by decide, c3_scoring [0, 4, 7] 0 1 (by decide)⟩

/-- The minimum fret value among the fretted (numeric, `> 0`) strings. -/
def barreMinFret (frets : List FretValue) : Nat :=
  minimumD ((frettedNotes frets).map (fun note => note.1)) 0

/-- The string indices holding the minimum fret value. -/
def barreStringsOf (frets : List FretValue) : List Nat :=
  ((frettedNotes frets).filter (fun note => note.1 == barreMinFret frets)).map
    (fun note => note.2)

/-- C7: barre detection emits a barre exactly when at least two fretted
strings share the minimum fret value; the barre then carries that fret,
the lowest and highest sharing string index, and finger 1. In particular
`[1,3,3,2,1,1]` yields a barre at fret 1 from string 0 to string 5. -/
theorem c7_barre_detection :
    (∀ frets : List FretValue,
      (frettedNotes frets = [] → detectBarre frets = none) ∧
      (frettedNotes frets ≠ [] →
        ((barreStringsOf frets).length < 2 → detectBarre frets = none) ∧
        (2 ≤ (barreStringsOf frets).length →
          detectBarre frets = some
            ⟨barreMinFret frets, minimumD (barreStringsOf frets) 0,
             maximumD (barreStringsOf frets) 0, 1⟩))) ∧
    detectBarre [FretValue.num 1, FretValue.num 3, FretValue.num 3, FretValue.num 2,
      FretValue.num 1, FretValue.num 1] = some ⟨1, 0, 5, 1⟩ := by
  constructor
  · intro frets
    constructor
    · intro h
      simp [detectBarre, h]
    · intro hne
      have hie : (frettedNotes frets).isEmpty = false := by
        cases hfn : frettedNotes frets with
        | nil => exact absurd hfn hne
        | cons a l => simp
      constructor
      · intro hlt
        unfold barreStringsOf barreMinFret at hlt
        rw [List.length_map] at hlt
        simp [detectBarre, hie, hlt]
      · intro hge
        unfold barreStringsOf barreMinFret at hge
        rw [List.length_map] at hge
        simp [detectBarre, hie, Nat.not_lt.mpr hge, barreStringsOf, barreMinFret]
  · decide

/-- Witness for C7: applying the general characterisation to the concrete
pattern `[1,3,3,2,1,1]` (three strings share the minimum fret 1). -/
theorem c7_barre_detection_witness :
    frettedNotes [FretValue.num 1, FretValue.num 3, FretValue.num 3, FretValue.num 2,
      FretValue.num 1, FretValue.num 1] ≠ [] ∧
    2 ≤ (barreStringsOf [FretValue.num 1, FretValue.num 3, FretValue.num 3, FretValue.num 2,
      FretValue.num 1, FretValue.num 1]).length ∧
    detectBarre [FretValue.num 1, FretValue.num 3, FretValue.num 3, FretValue.num 2,
      FretValue.num 1, FretValue.num 1] = some
      ⟨barreMinFret [FretValue.num 1, FretValue.num 3, FretValue.num 3, FretValue.num 2,
         FretValue.num 1, FretValue.num 1],
       minimumD (barreStringsOf [FretValue.num 1, FretValue.num 3, FretValue.num 3,
         FretValue.num 2, FretValue.num 1, FretValue.num 1]) 0,
       maximumD (barreStringsOf [FretValue.num 1, FretValue.num 3, FretValue.num 3,
         FretValue.num 2, FretValue.num 1, FretValue.num 1]) 0, 1⟩ :=
  ⟨by decide, by decide,
    ((c7_barre_detection.1 [FretValue.num 1, FretValue.num 3, FretValue.num 3, FretValue.num 2,
      FretValue.num 1, FretValue.num 1]).2 (by decide)).2 (by decide)⟩

theorem foldl_bestStep_none {chordTones : List PitchClass} {root : PitchClass} :
    ∀ {sfs : List Nat}, (∀ sf ∈ sfs, generateChordVoicings chordTones root sf = []) →
      sfs.foldl (bestStep chordTones root) none = none := by
  intro sfs
  induction sfs with
  | nil => intro h; rfl
  | cons sf rest ih =>
      intro h
      rw [List.foldl_cons]
      have h1 : generateChordVoicings chordTones root sf = [] := h sf (by simp)
      have h2 : bestStep chordTones root none sf = none := by
        simp [bestStep, h1]
      rw [h2]
      exact ih (fun s hs => h s (List.mem_cons_of_mem _ hs))

/-- C9: the best-position driver is a total function (it never raises a
fault in the model), and when the search returns no candidate at any
`startFret` in 1..12 it returns the all-muted shape: six `'x'` frets, six
empty fingers, display start fret 1, and no barre. -/
theorem c9_fallback (chordTones : List PitchClass) (root : PitchClass)
    (hall : ∀ sf ∈ List.range' 1 12, generateChordVoicings chordTones root sf = []) :
    getBestVoicingShape chordTones root =
      { frets := List.replicate 6 FretValue.x,
        fingers := List.replicate 6 none,
        startFret := 1,
        barre := none } := by
  unfold getBestVoicingShape TOTAL_FRETS
  rw [foldl_bestStep_none hall]
  decide

/-- Witness for C9: the empty chord-tone set admits no voicing at any
position, and the driver returns the all-muted placeholder for it. -/
theorem c9_fallback_witness :
    (∀ sf ∈ List.range' 1 12, generateChordVoicings [] 0 sf = []) ∧
    getBestVoicingShape [] 0 =
      { frets := List.replicate 6 FretValue.x,
        fingers := List.replicate 6 none,
        startFret := 1,
        barre := none } :=
  ⟨by decide, c9_fallback [] 0 (by decide)⟩

theorem head?_mem {α : Type} {l : List α} {a : α} (h : l.head? = some a) : a ∈ l := by
  cases l with
  | nil => cases h
  | cons x xs =>
      injection h with h'
      rw [← h']
      simp

/-- Any `some` result of the driver's scan loop is a member of one of the
scanned search outputs. -/
theorem foldl_bestStep_mem {chordTones : List PitchClass} {root : PitchClass} :
    ∀ {sfs : List Nat} {init : Option ScoredVoicing},
      (∀ b, init = some b → ∃ sf, b ∈ generateChordVoicings chordTones root sf) →
      ∀ b, sfs.foldl (bestStep chordTones root) init = some b →
        ∃ sf, b ∈ generateChordVoicings chordTones root sf := by
  intro sfs
  induction sfs with
  | nil => intro init h b hb; exact h b hb
  | cons sf rest ih =>
      intro init h b hb
      rw [List.foldl_cons] at hb
      refine ih ?_ b hb
      intro b' hb'
      simp only [bestStep] at hb'
      rcases hhead : (generateChordVoicings chordTones root sf).head? with _ | c
      · rw [hhead] at hb'
        exact h b' hb'
      · rw [hhead] at hb'
        have hc : c ∈ generateChordVoicings chordTones root sf := head?_mem hhead
        rcases init with _ | b0
        · injection hb' with h'
          exact ⟨sf, h' ▸ hc⟩
        · simp only at hb'
          split_ifs at hb' with hlt
          · injection hb' with h'
            exact ⟨sf, h' ▸ hc⟩
          · exact h b' hb'

theorem bestStep_some_ne_none {chordTones : List PitchClass} {root : PitchClass}
    (b : ScoredVoicing) (sf : Nat) :
    bestStep chordTones root (some b) sf ≠ none := by
  simp only [bestStep]
  rcases (generateChordVoicings chordTones root sf).head? with _ | c
  · simp
  · simp only
    split_ifs <;> simp

/-- If some scanned position has a nonempty search output, the driver's
scan does not end empty-handed. -/
theorem foldl_bestStep_ne_none {chordTones : List PitchClass} {root : PitchClass} :
    ∀ {sfs : List Nat} {init : Option ScoredVoicing},
      (init ≠ none ∨ ∃ sf ∈ sfs, generateChordVoicings chordTones root sf ≠ []) →
      sfs.foldl (bestStep chordTones root) init ≠ none := by
  intro sfs
  induction sfs with
  | nil =>
      intro init h
      rcases h with h | ⟨sf, hsf, -⟩
      · exact h
      · simp at hsf
  | cons sf rest ih =>
      intro init h
      rw [List.foldl_cons]
      rcases init with _ | b0
      · rcases h with h | ⟨sf', hsf', hne⟩
        · exact absurd rfl h
        · rcases List.mem_cons.mp hsf' with rfl | hmem
          · have : ∃ c, (generateChordVoicings chordTones root sf').head? = some c := by
              cases hl : generateChordVoicings chordTones root sf' with
              | nil => exact absurd hl hne
              | cons x xs => exact ⟨x, rfl⟩
            rcases this with ⟨c, hc⟩
            have hstep : ∃ b', bestStep chordTones root none sf' = some b' := by
              simp only [bestStep]
              rw [hc]
              exact ⟨c, rfl⟩
            rcases hstep with ⟨b', hb'⟩
            rw [hb']
            exact ih (Or.inl (by simp))
          · rcases hstep : bestStep chordTones root none sf with _ | b'
            · exact ih (Or.inr ⟨sf', hmem, hne⟩)
            · exact ih (Or.inl (by simp))
      · rcases hstep : bestStep chordTones root (some b0) sf with _ | b'
        · exact absurd hstep (bestStep_some_ne_none b0 sf)
        · exact ih (Or.inl (by simp))

theorem generateChordVoicings_ne_nil {chordTones : List PitchClass} {root : PitchClass}
    {startFret : Nat} (h : filteredVoicings chordTones root startFret ≠ []) :
    generateChordVoicings chordTones root startFret ≠ [] := by
  intro hcontra
  apply h
  have hperm := List.perm_insertionSort scoredLE
    ((filteredVoicings chordTones root startFret).map (fun voicing =>
      ScoredVoicing.mk voicing (getVoicingScore voicing root 4)))
  unfold generateChordVoicings at hcontra
  rw [hcontra] at hperm
  have hlen := hperm.length_eq
  simp only [List.length_nil, List.length_map] at hlen
  exact List.length_eq_zero.mp hlen.symm

/-- C2: for every major triad `{r, r+4, r+7}` and minor triad `{r, r+3, r+7}`
over all 12 roots, the best-position driver returns a shape with between 3
and 6 sounded (non-`'x'`) frets; being a total function of the model, it
returns a value on every input. -/
theorem c2_triads (root : Nat) (chordTones : List PitchClass) (hr : root < 12)
    (hct : chordTones = [root, (root + 4) % 12, (root + 7) % 12] ∨
           chordTones = [root, (root + 3) % 12, (root + 7) % 12]) :
    3 ≤ (soundedFrets (getBestVoicingShape chordTones root).frets).length ∧
    (soundedFrets (getBestVoicingShape chordTones root).frets).length ≤ 6 := by
  have hfilters : ∀ r < 12, filteredVoicings [r, (r + 4) % 12, (r + 7) % 12] r 1 ≠ [] ∧
      filteredVoicings [r, (r + 3) % 12, (r + 7) % 12] r 1 ≠ [] := by decide
  have hne : generateChordVoicings chordTones root 1 ≠ [] := by
    rcases hct with rfl | rfl
    · exact generateChordVoicings_ne_nil (hfilters root hr).1
    · exact generateChordVoicings_ne_nil (hfilters root hr).2
  have hfold : (List.range' 1 TOTAL_FRETS).foldl (bestStep chordTones root) none ≠ none :=
    foldl_bestStep_ne_none (Or.inr ⟨1, by decide, hne⟩)
  rcases hsome : (List.range' 1 TOTAL_FRETS).foldl (bestStep chordTones root) none with _ | b
  · exact absurd hsome hfold
  · obtain ⟨sf, hb⟩ := foldl_bestStep_mem (fun b' hb' => by cases hb') b hsome
    obtain ⟨-, -, hmin, hmax⟩ := generate_voicing_props hb
    have hshape : getBestVoicingShape chordTones root = buildChordShape b.voicing.frets none := by
      unfold getBestVoicingShape
      rw [hsome]
    have hfrets : (getBestVoicingShape chordTones root).frets = b.voicing.frets := by
      rw [hshape]
      rfl
    rw [hfrets]
    exact ⟨hmin, hmax⟩

/-- Witness for C2 at the C-major triad (root 0). -/
theorem c2_triads_witness :
    (0 : Nat) < 12 ∧
    (([0, 4, 7] : List PitchClass) = [0, (0 + 4) % 12, (0 + 7) % 12] ∨
     ([0, 4, 7] : List PitchClass) = [0, (0 + 3) % 12, (0 + 7) % 12]) ∧
    (3 ≤ (soundedFrets (getBestVoicingShape [0, 4, 7] 0).frets).length ∧
     (soundedFrets (getBestVoicingShape [0, 4, 7] 0).frets).length ≤ 6) :=
  ⟨by decide, by decide, c2_triads 0 [0, 4, 7] (by decide) (by decide)⟩

/-- Stated from the spec's words (claim C6): one step of the best-position
scan. The lowest-score result of the search at `startFret` is adjusted by
`startFret × 0.3`; it replaces the stored best exactly when no best exists
yet or the adjusted score is strictly below the stored best's raw score
plus the stored candidate's own window start × 0.3. -/
def specBestUpdate (chordTones : List PitchClass) (root : PitchClass)
    (best : Option ScoredVoicing) (startFret : Nat) : Option ScoredVoicing :=
  match (generateChordVoicings chordTones root startFret).head? with
  | none => best
  | some candidate =>
      let newAdjusted := candidate.score + ((startFret : ℚ) * (0.3 : ℚ) : ℚ)
      match best with
      | none => some candidate
      | some stored =>
          if newAdjusted < stored.score + ((stored.voicing.windowStart : ℚ) * (0.3 : ℚ) : ℚ)
          then some candidate
          else some stored

/-- C6: the best-position driver scans `startFret` 1..12 folding exactly the
update rule of `specBestUpdate` (new adjusted score strictly below the
stored score plus the stored window start × 0.3, or no stored best), and
the candidate taken at each position is score-minimal in that search
output. -/
theorem c6_best_position_driver (chordTones : List PitchClass) (root : PitchClass) :
    (getBestVoicingShape chordTones root =
      match (List.range' 1 12).foldl (specBestUpdate chordTones root) none with
      | none => buildChordShape (List.replicate 6 FretValue.x) none
      | some best => buildChordShape best.voicing.frets none) ∧
    (∀ (startFret : Nat) (b : ScoredVoicing),
      (generateChordVoicings chordTones root startFret).head? = some b →
      ∀ sv ∈ generateChordVoicings chordTones root startFret, scoredLE b sv) := by
  constructor
  · have hstep : bestStep chordTones root = specBestUpdate chordTones root := by
      funext best sf
      simp only [bestStep, specBestUpdate]
    unfold getBestVoicingShape TOTAL_FRETS
    rw [hstep]
  · intro sf b hb sv hsv
    have hsorted := generateChordVoicings_sorted chordTones root sf
    cases hl : generateChordVoicings chordTones root sf with
    | nil => rw [hl] at hb; cases hb
    | cons x xs =>
        rw [hl] at hb hsv hsorted
        injection hb with h'
        subst h'
        rcases List.mem_cons.mp hsv with rfl | hmem
        · exact le_refl _
        · exact (List.pairwise_cons.mp hsorted).1 sv hmem

/-- Witness for C6 at the C-major triad, root 0. -/
theorem c6_best_position_driver_witness :
    (getBestVoicingShape [0, 4, 7] 0 =
      match (List.range' 1 12).foldl (specBestUpdate [0, 4, 7] 0) none with
      | none => buildChordShape (List.replicate 6 FretValue.x) none
      | some best => buildChordShape best.voicing.frets none) ∧
    (∀ (startFret : Nat) (b : ScoredVoicing),
      (generateChordVoicings [0, 4, 7] 0 startFret).head? = some b →
      ∀ sv ∈ generateChordVoicings [0, 4, 7] 0 startFret, scoredLE b sv) :=
  c6_best_position_driver [0, 4, 7] 0

/-- The all-empty fallback diagram, used only to make indexing total in the
statement of C8. -/
def emptyDiagram : DiatonicChordDiagram := ⟨"", "", "", ⟨[], [], 1, none⟩⟩

theorem diatonicDiagramFor_preferred {scaleNotes : List ScaleNote} {tonality : Tonality}
    {degreeLabels : List String} {p : Nat × ScaleNote}
    {ps : String × (List FretValue × List (Option Nat))}
    (hps : PREFERRED_SHAPES.find? (fun q =>
      q.1 == (diatonicDiagramFor scaleNotes tonality degreeLabels p).name) = some ps) :
    (diatonicDiagramFor scaleNotes tonality degreeLabels p).shape
      = buildChordShape ps.2.1 (some ps.2.2) := by
  simp only [diatonicDiagramFor] at hps ⊢
  rw [hps]
  rfl

/-- C8: any diatonic diagram whose computed chord name is a key of the
`PREFERRED_SHAPES` table carries exactly the table's hard-coded fret
pattern and finger map, built through `buildChordShape` with the barre
auto-detected from the provided frets. -/
theorem c8_reference_shape_override (currentKey : CurrentKeyData)
    (spellingMode : SpellingMode) (tonality : Tonality) (i : Nat)
    (ps : String × (List FretValue × List (Option Nat)))
    (hps : PREFERRED_SHAPES.find? (fun q =>
      q.1 == (((getDiatonicChordDiagrams currentKey spellingMode tonality).getD []).getD i
        emptyDiagram).name) = some ps) :
    (((getDiatonicChordDiagrams currentKey spellingMode tonality).getD []).getD i
        emptyDiagram).shape = buildChordShape ps.2.1 (some ps.2.2) ∧
    (((getDiatonicChordDiagrams currentKey spellingMode tonality).getD []).getD i
        emptyDiagram).shape.frets = ps.2.1 ∧
    (((getDiatonicChordDiagrams currentKey spellingMode tonality).getD []).getD i
        emptyDiagram).shape.fingers = ps.2.2 ∧
    (((getDiatonicChordDiagrams currentKey spellingMode tonality).getD []).getD i
        emptyDiagram).shape.barre = detectBarre ps.2.1 := by
  have hempty : PREFERRED_SHAPES.find? (fun q => q.1 == emptyDiagram.name) = none := by
    decide
  have hmain : (((getDiatonicChordDiagrams currentKey spellingMode tonality).getD []).getD i
      emptyDiagram).shape = buildChordShape ps.2.1 (some ps.2.2) := by
    rcases hdg : getDiatonicChordDiagrams currentKey spellingMode tonality with _ | ds
    · rw [hdg] at hps
      simp only [Option.getD_none, List.getD_nil] at hps
      rw [hempty] at hps
      cases hps
    · have hds : ∃ (sns : List ScaleNote) (dls : List String),
          ds = sns.enum.map (diatonicDiagramFor sns tonality dls) := by
        simp only [getDiatonicChordDiagrams] at hdg
        split at hdg
        · exact absurd hdg (by simp)
        · injection hdg with h'
          exact ⟨_, _, h'.symm⟩
      rcases hds with ⟨sns, dls, rfl⟩
      rw [hdg] at hps
      simp only [Option.getD_some] at hps ⊢
      rw [List.getD_eq_getElem?_getD, List.getElem?_map] at hps ⊢
      rcases henum : sns.enum[i]? with _ | q
      · rw [henum] at hps
        simp only [Option.map_none', Option.getD_none] at hps ⊢
        rw [hempty] at hps
        cases hps
      · rw [henum] at hps
        simp only [Option.map_some', Option.getD_some] at hps ⊢
        exact diatonicDiagramFor_preferred hps
  refine ⟨hmain, ?_, ?_, ?_⟩ <;> rw [hmain] <;> rfl

/-- Witness for C8: in the C-major key the degree-0 chord is named `C`,
whose table entry carries the open-position shape `x-3-2-0-1-0`. -/
theorem c8_reference_shape_override_witness :
    PREFERRED_SHAPES.find? (fun q =>
      q.1 == (((getDiatonicChordDiagrams ⟨0, "C", "Am"⟩ SpellingMode.Auto
        Tonality.major).getD []).getD 0 emptyDiagram).name) =
      some ("C", ([FretValue.x, FretValue.num 3, FretValue.num 2, FretValue.num 0,
        FretValue.num 1, FretValue.num 0], [none, some 3, some 2, none, some 1, none])) ∧
    (((getDiatonicChordDiagrams ⟨0, "C", "Am"⟩ SpellingMode.Auto Tonality.major).getD
        []).getD 0 emptyDiagram).shape =
      buildChordShape [FretValue.x, FretValue.num 3, FretValue.num 2, FretValue.num 0,
        FretValue.num 1, FretValue.num 0]
        (some [none, some 3, some 2, none, some 1, none]) :=
  ⟨by decide,
    (c8_reference_shape_override ⟨0, "C", "Am"⟩ SpellingMode.Auto Tonality.major 0
      ("C", ([FretValue.x, FretValue.num 3, FretValue.num 2, FretValue.num 0,
        FretValue.num 1, FretValue.num 0], [none, some 3, some 2, none, some 1, none]))
      (by decide)).1⟩

end GuitarChords
